import Mathlib

/-!
Verification of the sequence-generation core of `src/app.py`.

The computational core of the repository is two pure Python functions,
`generate_arithmetic_sequence` and `generate_geometric_sequence`.  Each
builds a list by iterating `for i in range(num_terms)` and appending the
closed-form term (`first_term + i * common_difference`, respectively
`first_term * common_ratio ** i`).  We embed them as maps over
`List.range`, which is exactly the order of appends of the Python loop.

Numeric parameters are modelled over an arbitrary commutative ring
(specialised to an ordered field where a claim needs division or signs),
so the theorems cover the real numbers of the specification while staying
executable over `ℚ` for concrete witnesses.  The term count is modelled
as `ℤ`, matching a Python `int` argument: `range(n)` for `n ≤ 0` is
empty, which `Int.toNat` reproduces.
-/

/-- Embedding of `generate_arithmetic_sequence` (src/app.py lines 7-23):
the loop `for i in range(num_terms)` appends `first_term + (i * common_difference)`. -/
def generate_arithmetic_sequence {K : Type} [CommRing K]
    (first_term common_difference : K) (num_terms : ℤ) : List K :=
  (List.range num_terms.toNat).map (fun (i : ℕ) => first_term + (i : K) * common_difference)

/-- Embedding of `generate_geometric_sequence` (src/app.py lines 25-41):
the loop `for i in range(num_terms)` appends `first_term * (common_ratio ** i)`.
Python integer exponentiation has `r ** 0 == 1` (also for `r == 0`), exactly
as `Monoid.npow` does. -/
def generate_geometric_sequence {K : Type} [CommRing K]
    (first_term common_ratio : K) (num_terms : ℤ) : List K :=
  (List.range num_terms.toNat).map (fun (i : ℕ) => first_term * common_ratio ^ i)

/-- C1: for every first term `a`, common difference `d` and term count `n ≥ 1`,
the arithmetic generator returns an ordered sequence of length `n` whose element
at 0-based index `i` equals `a + i * d`. -/
theorem arithmetic_terms_correct {K : Type} [CommRing K] (a d : K) (n : ℤ) (hn : 1 ≤ n) :
    ((generate_arithmetic_sequence a d n).length : ℤ) = n ∧
      ∀ (i : ℕ) (hi : i < (generate_arithmetic_sequence a d n).length),
        (generate_arithmetic_sequence a d n).get ⟨i, hi⟩ = a + (i : K) * d := by
  constructor
  · rw [generate_arithmetic_sequence, List.length_map, List.length_range,
      Int.toNat_of_nonneg (by omega : (0 : ℤ) ≤ n)]
  · intro i hi
    simp only [generate_arithmetic_sequence, List.get_eq_getElem, List.getElem_map,
      List.getElem_range]

/-- Witness for C1 at `a = 0, d = 1, n = 3` over `ℚ`. -/
theorem arithmetic_terms_correct_witness :
    ((generate_arithmetic_sequence (0 : ℚ) 1 3).length : ℤ) = 3 ∧
      ∀ (i : ℕ) (hi : i < (generate_arithmetic_sequence (0 : ℚ) 1 3).length),
        (generate_arithmetic_sequence (0 : ℚ) 1 3).get ⟨i, hi⟩ = 0 + (i : ℚ) * 1 :=
  arithmetic_terms_correct 0 1 3 (by decide)

/-- C2: for every first term `a`, common ratio `r` and term count `n ≥ 1`,
the geometric generator returns an ordered sequence of length `n` whose element
at 0-based index `i` equals `a * r ^ i`. -/
theorem geometric_terms_correct {K : Type} [CommRing K] (a r : K) (n : ℤ) (hn : 1 ≤ n) :
    ((generate_geometric_sequence a r n).length : ℤ) = n ∧
      ∀ (i : ℕ) (hi : i < (generate_geometric_sequence a r n).length),
        (generate_geometric_sequence a r n).get ⟨i, hi⟩ = a * r ^ i := by
  constructor
  · rw [generate_geometric_sequence, List.length_map, List.length_range,
      Int.toNat_of_nonneg (by omega : (0 : ℤ) ≤ n)]
  · intro i hi
    simp only [generate_geometric_sequence, List.get_eq_getElem, List.getElem_map,
      List.getElem_range]

/-- Witness for C2 at `a = 1, r = 2, n = 5` over `ℚ`. -/
theorem geometric_terms_correct_witness :
    ((generate_geometric_sequence (1 : ℚ) 2 5).length : ℤ) = 5 ∧
      ∀ (i : ℕ) (hi : i < (generate_geometric_sequence (1 : ℚ) 2 5).length),
        (generate_geometric_sequence (1 : ℚ) 2 5).get ⟨i, hi⟩ = 1 * 2 ^ i :=
  geometric_terms_correct 1 2 5 (by decide)

/-- C3: with common ratio `0` and `n ≥ 1`, the geometric generator returns `a`
as its first element (the `0 ^ 0 = 1` convention of Python `**`) and `0` at
every subsequent position. -/
theorem geometric_zero_step {K : Type} [CommRing K] (a : K) (n : ℤ) (hn : 1 ≤ n) :
    ∀ (i : ℕ) (hi : i < (generate_geometric_sequence a 0 n).length),
      (generate_geometric_sequence a 0 n).get ⟨i, hi⟩ = if i = 0 then a else 0 := by
  intro i hi
  rcases Nat.eq_zero_or_pos i with h0 | h0
  · subst h0
    simp [generate_geometric_sequence]
  · simp [generate_geometric_sequence, Nat.pos_iff_ne_zero.mp h0,
      zero_pow (Nat.pos_iff_ne_zero.mp h0)]

/-- Witness for C3 at `a = 7, n = 3` over `ℚ`, checked at indices `0` and `2`. -/
theorem geometric_zero_step_witness :
    (generate_geometric_sequence (7 : ℚ) 0 3).get ⟨0, by decide⟩ = 7 ∧
      (generate_geometric_sequence (7 : ℚ) 0 3).get ⟨2, by decide⟩ = 0 := by
  refine ⟨?_, ?_⟩
  · simpa using geometric_zero_step (7 : ℚ) 3 (by decide) 0 (by decide)
  · simpa using geometric_zero_step (7 : ℚ) 3 (by decide) 2 (by decide)

/-- Twice the sum of the arithmetic list, in closed form (avoids division). -/
lemma arith_sum_mul_two {K : Type} [CommRing K] (a d : K) (m : ℕ) :
    ((List.range m).map (fun (i : ℕ) => a + (i : K) * d)).sum * 2
      = (m : K) * (2 * a + ((m : K) - 1) * d) := by
  induction m with
  | zero => simp
  | succ k ih =>
    rw [List.range_succ, List.map_append, List.sum_append]
    simp only [List.map_cons, List.map_nil, List.sum_cons, List.sum_nil, add_zero]
    push_cast
    linear_combination ih

/-- The last entry of a nonempty mapped range. -/
lemma getLast?_map_range {K : Type} (f : ℕ → K) (m : ℕ) (hm : 1 ≤ m) :
    ((List.range m).map f).getLast? = some (f (m - 1)) := by
  cases m with
  | zero => omega
  | succ k =>
    rw [List.range_succ, List.map_append]
    simp

/-- C4: for `n ≥ 1` the sum of the arithmetic sequence equals
`n * (2a + (n-1)d) / 2`, the last element exists and equals `a + (n-1)d`, and
the sum equally equals `n * (a + lastTerm) / 2`; the two closed forms agree
with direct summation exactly over exact arithmetic. -/
theorem arithmetic_sum_formulas {K : Type} [Field K] [CharZero K]
    (a d : K) (n : ℤ) (hn : 1 ≤ n) :
    (generate_arithmetic_sequence a d n).sum = (n : K) * (2 * a + ((n : K) - 1) * d) / 2 ∧
      (generate_arithmetic_sequence a d n).getLast? = some (a + ((n : K) - 1) * d) ∧
      ∀ lastTerm : K, (generate_arithmetic_sequence a d n).getLast? = some lastTerm →
        (generate_arithmetic_sequence a d n).sum = (n : K) * (a + lastTerm) / 2 := by
  have hn0 : (0 : ℤ) ≤ n := by omega
  have hm : 1 ≤ n.toNat := by omega
  have hcast : ((n.toNat : ℕ) : K) = (n : K) := by
    rw [← Int.cast_natCast, Int.toNat_of_nonneg hn0]
  have hsum : (generate_arithmetic_sequence a d n).sum * 2
      = (n : K) * (2 * a + ((n : K) - 1) * d) := by
    rw [generate_arithmetic_sequence, arith_sum_mul_two, hcast]
  have h2 : (2 : K) ≠ 0 := two_ne_zero
  have hfst : (generate_arithmetic_sequence a d n).sum
      = (n : K) * (2 * a + ((n : K) - 1) * d) / 2 := by
    rw [eq_div_iff h2]
    exact hsum
  have hlast : (generate_arithmetic_sequence a d n).getLast? = some (a + ((n : K) - 1) * d) := by
    rw [generate_arithmetic_sequence, getLast?_map_range _ _ hm]
    congr 1
    rw [Nat.cast_sub hm, hcast, Nat.cast_one]
  refine ⟨hfst, hlast, ?_⟩
  intro lastTerm hlt
  rw [hlast] at hlt
  have hl : lastTerm = a + ((n : K) - 1) * d := (Option.some.injEq _ _ ▸ hlt).symm
  rw [hfst, hl]
  ring

/-- Witness for C4 at `a = 0, d = 1, n = 10` over `ℚ`. -/
theorem arithmetic_sum_formulas_witness :
    (generate_arithmetic_sequence (0 : ℚ) 1 10).sum
        = (10 : ℚ) * (2 * 0 + ((10 : ℚ) - 1) * 1) / 2 ∧
      (generate_arithmetic_sequence (0 : ℚ) 1 10).getLast?
        = some (0 + ((10 : ℚ) - 1) * 1) ∧
      ∀ lastTerm : ℚ, (generate_arithmetic_sequence (0 : ℚ) 1 10).getLast? = some lastTerm →
        (generate_arithmetic_sequence (0 : ℚ) 1 10).sum = (10 : ℚ) * (0 + lastTerm) / 2 := by
  have h := arithmetic_sum_formulas (0 : ℚ) 1 10 (by decide)
  simpa using h

/-- Closed form of the geometric list sum when the ratio is not `1`. -/
lemma geom_sum_list {K : Type} [Field K] (a r : K) (hr : r ≠ 1) (m : ℕ) :
    ((List.range m).map (fun (i : ℕ) => a * r ^ i)).sum = a * (1 - r ^ m) / (1 - r) := by
  have h1 : (1 : K) - r ≠ 0 := sub_ne_zero.mpr (Ne.symm hr)
  induction m with
  | zero => simp
  | succ k ih =>
    rw [List.range_succ, List.map_append, List.sum_append, ih]
    simp only [List.map_cons, List.map_nil, List.sum_cons, List.sum_nil, add_zero]
    field_simp
    ring

/-- C5: for `n ≥ 1`, the sum of the geometric sequence equals
`a * (1 - r^n) / (1 - r)` when `r ≠ 1`, and when `r = 1` every term equals `a`
and the sum equals `n * a` exactly. -/
theorem geometric_sum_formulas {K : Type} [Field K] (a r : K) (n : ℤ) (hn : 1 ≤ n) :
    (r ≠ 1 → (generate_geometric_sequence a r n).sum = a * (1 - r ^ n.toNat) / (1 - r)) ∧
      (r = 1 →
        (∀ (i : ℕ) (hi : i < (generate_geometric_sequence a r n).length),
            (generate_geometric_sequence a r n).get ⟨i, hi⟩ = a) ∧
          (generate_geometric_sequence a r n).sum = (n : K) * a) := by
  have hn0 : (0 : ℤ) ≤ n := by omega
  have hcast : ((n.toNat : ℕ) : K) = (n : K) := by
    rw [← Int.cast_natCast, Int.toNat_of_nonneg hn0]
  constructor
  · intro hr
    rw [generate_geometric_sequence, geom_sum_list a r hr]
  · intro hr
    subst hr
    constructor
    · intro i hi
      simp only [generate_geometric_sequence, List.get_eq_getElem, List.getElem_map,
        List.getElem_range, one_pow, mul_one]
    · rw [generate_geometric_sequence, ← hcast]
      simp only [one_pow, mul_one]
      induction n.toNat with
      | zero => simp
      | succ k ih =>
        rw [List.range_succ, List.map_append, List.sum_append, ih]
        push_cast
        simp only [List.map_cons, List.map_nil, List.sum_cons, List.sum_nil, add_zero]
        ring

/-- Witness for C5 at `a = 1, r = 2, n = 5` over `ℚ`. -/
theorem geometric_sum_formulas_witness :
    ((2 : ℚ) ≠ 1 → (generate_geometric_sequence (1 : ℚ) 2 5).sum
        = 1 * (1 - 2 ^ (5 : ℤ).toNat) / (1 - 2)) ∧
      ((2 : ℚ) = 1 →
        (∀ (i : ℕ) (hi : i < (generate_geometric_sequence (1 : ℚ) 2 5).length),
            (generate_geometric_sequence (1 : ℚ) 2 5).get ⟨i, hi⟩ = 1) ∧
          (generate_geometric_sequence (1 : ℚ) 2 5).sum = (5 : ℚ) * 1) :=
  geometric_sum_formulas (1 : ℚ) 2 5 (by decide)

/-- C7: for every first term `a` and step value `s`, both generators called with
`num_terms = 1` return the single-element sequence `[a]`. -/
theorem single_term_sequences {K : Type} [CommRing K] (a s : K) :
    generate_arithmetic_sequence a s 1 = [a] ∧ generate_geometric_sequence a s 1 = [a] := by
  constructor <;>
    simp [generate_arithmetic_sequence, generate_geometric_sequence, List.range_succ]

/-- C6: for `a ≠ 0`, `r < 0` and `n ≥ 1`, every term of the geometric sequence
equals the signed power `a * r ^ i` exactly (0-based index `i`), consecutive
terms have strictly opposite signs (their product is negative), and in
particular `generate_geometric_sequence 2 (-1) 4 = [2, -2, 2, -2]` with sum `0`. -/
theorem geometric_negative_step {K : Type} [LinearOrderedField K] (a r : K) (n : ℤ)
    (ha : a ≠ 0) (hr : r < 0) (hn : 1 ≤ n) :
    (∀ (i : ℕ) (hi : i < (generate_geometric_sequence a r n).length),
        (generate_geometric_sequence a r n).get ⟨i, hi⟩ = a * r ^ i) ∧
      (∀ (i : ℕ) (hi1 : i + 1 < (generate_geometric_sequence a r n).length),
        (generate_geometric_sequence a r n).get ⟨i, Nat.lt_of_succ_lt hi1⟩ *
            (generate_geometric_sequence a r n).get ⟨i + 1, hi1⟩ < 0) ∧
      generate_geometric_sequence (2 : ℚ) (-1) 4 = [2, -2, 2, -2] ∧
      (generate_geometric_sequence (2 : ℚ) (-1) 4).sum = 0 := by
  refine ⟨?_, ?_, ?_, ?_⟩
  · intro i hi
    simp only [generate_geometric_sequence, List.get_eq_getElem, List.getElem_map,
      List.getElem_range]
  · intro i hi1
    simp only [generate_geometric_sequence, List.get_eq_getElem, List.getElem_map,
      List.getElem_range]
    have hbase : a * r ^ i ≠ 0 := mul_ne_zero ha (pow_ne_zero i (ne_of_lt hr))
    have hsq : 0 < (a * r ^ i) ^ 2 := sq_pos_of_ne_zero hbase
    have heq : a * r ^ i * (a * r ^ (i + 1)) = (a * r ^ i) ^ 2 * r := by ring
    rw [heq]
    exact mul_neg_of_pos_of_neg hsq hr
  · have h4 : (4 : ℤ).toNat = 4 := rfl
    norm_num [generate_geometric_sequence, h4, List.range_succ]
  · have h4 : (4 : ℤ).toNat = 4 := rfl
    norm_num [generate_geometric_sequence, h4, List.range_succ]

/-- Witness for C6 at `a = 2, r = -1, n = 4` over `ℚ`. -/
theorem geometric_negative_step_witness :
    (∀ (i : ℕ) (hi : i < (generate_geometric_sequence (2 : ℚ) (-1) 4).length),
        (generate_geometric_sequence (2 : ℚ) (-1) 4).get ⟨i, hi⟩ = 2 * (-1) ^ i) ∧
      (∀ (i : ℕ) (hi1 : i + 1 < (generate_geometric_sequence (2 : ℚ) (-1) 4).length),
        (generate_geometric_sequence (2 : ℚ) (-1) 4).get ⟨i, Nat.lt_of_succ_lt hi1⟩ *
            (generate_geometric_sequence (2 : ℚ) (-1) 4).get ⟨i + 1, hi1⟩ < 0) ∧
      generate_geometric_sequence (2 : ℚ) (-1) 4 = [2, -2, 2, -2] ∧
      (generate_geometric_sequence (2 : ℚ) (-1) 4).sum = 0 :=
  geometric_negative_step (2 : ℚ) (-1) 4 (by decide) (by decide) (by decide)

/-- C8: both generators are deterministic — two calls with pointwise equal
arguments yield equal output sequences. -/
theorem generators_deterministic {K : Type} [CommRing K]
    (a₁ d₁ r₁ : K) (n₁ : ℤ) (a₂ d₂ r₂ : K) (n₂ : ℤ)
    (ha : a₁ = a₂) (hd : d₁ = d₂) (hrr : r₁ = r₂) (hn : n₁ = n₂) :
    generate_arithmetic_sequence a₁ d₁ n₁ = generate_arithmetic_sequence a₂ d₂ n₂ ∧
      generate_geometric_sequence a₁ r₁ n₁ = generate_geometric_sequence a₂ r₂ n₂ := by
  subst ha
  subst hd
  subst hrr
  subst hn
  exact ⟨rfl, rfl⟩

/-- Witness for C8 at `a = 1, d = 2, r = 3, n = 4` over `ℚ`. -/
theorem generators_deterministic_witness :
    generate_arithmetic_sequence (1 : ℚ) 2 4 = generate_arithmetic_sequence (1 : ℚ) 2 4 ∧
      generate_geometric_sequence (1 : ℚ) 3 4 = generate_geometric_sequence (1 : ℚ) 3 4 :=
  generators_deterministic 1 2 3 4 1 2 3 4 rfl rfl rfl rfl

/-- C10: adjacent entries of the arithmetic sequence differ by exactly `d`, and
each entry of the geometric sequence after the first is exactly the previous
entry times `r`, over exact arithmetic. -/
theorem adjacent_recurrence {K : Type} [CommRing K] (a d r : K) (n : ℤ) :
    (∀ (i : ℕ) (hi1 : i + 1 < (generate_arithmetic_sequence a d n).length),
        (generate_arithmetic_sequence a d n).get ⟨i + 1, hi1⟩ -
            (generate_arithmetic_sequence a d n).get ⟨i, Nat.lt_of_succ_lt hi1⟩ = d) ∧
      ∀ (i : ℕ) (hi1 : i + 1 < (generate_geometric_sequence a r n).length),
        (generate_geometric_sequence a r n).get ⟨i + 1, hi1⟩ =
          (generate_geometric_sequence a r n).get ⟨i, Nat.lt_of_succ_lt hi1⟩ * r := by
  constructor <;>
    · intro i hi1
      simp only [generate_arithmetic_sequence, generate_geometric_sequence,
        List.get_eq_getElem, List.getElem_map, List.getElem_range]
      push_cast
      ring

/-- Witness for C10 at `a = 3, d = 2, r = 5, n = 6` over `ℚ`. -/
theorem adjacent_recurrence_witness :
    (∀ (i : ℕ) (hi1 : i + 1 < (generate_arithmetic_sequence (3 : ℚ) 2 6).length),
        (generate_arithmetic_sequence (3 : ℚ) 2 6).get ⟨i + 1, hi1⟩ -
            (generate_arithmetic_sequence (3 : ℚ) 2 6).get ⟨i, Nat.lt_of_succ_lt hi1⟩ = 2) ∧
      ∀ (i : ℕ) (hi1 : i + 1 < (generate_geometric_sequence (3 : ℚ) 5 6).length),
        (generate_geometric_sequence (3 : ℚ) 5 6).get ⟨i + 1, hi1⟩ =
          (generate_geometric_sequence (3 : ℚ) 5 6).get ⟨i, Nat.lt_of_succ_lt hi1⟩ * 5 :=
  adjacent_recurrence 3 2 5 6

/-- C9: called with a nonpositive term count (outside the spec's precondition),
both generators return the empty sequence rather than raising an error. -/
theorem nonpositive_terms_empty {K : Type} [CommRing K] (a d r : K) (n : ℤ) (hn : n ≤ 0) :
    generate_arithmetic_sequence a d n = [] ∧ generate_geometric_sequence a r n = [] := by
  have h : n.toNat = 0 := Int.toNat_of_nonpos hn
  simp [generate_arithmetic_sequence, generate_geometric_sequence, h]

/-- Witness for C9 at `a = 3, d = 2, r = 5, n = -1` over `ℚ`. -/
theorem nonpositive_terms_empty_witness :
    generate_arithmetic_sequence (3 : ℚ) 2 (-1) = [] ∧
      generate_geometric_sequence (3 : ℚ) 5 (-1) = [] :=
  nonpositive_terms_empty 3 2 5 (-1) (by decide)
